import Mathlib

/-!
Shallow embedding of the consensus support layer of TGPS-FREC/FRECX-NETWORK
(`src/contracts/utils.go`): reward distribution among masternode owners,
per-signer checkpoint reward computation, the deterministic validator
shuffle, the commit-reveal crypto helpers, and the signing/randomize
transaction builder.  Go `big.Int` values are embedded as `Int`
(`big.Int.Div` is Euclidean division, which is Lean's `Int` division `/`), `uint64`
loop counters as `Nat`, byte strings as `List Nat`, and Go maps as either
association lists (insertion order standing in for Go's unspecified map
iteration order, which never affects the final map contents proved about
here) or as functions with an explicit default (Go's zero value for a
missing key).  External collaborators (state accessors, chain reader,
transaction pool, wallet, AES/base64 from the Go standard library and the
seeded `math/rand` generator) are parameters of the embedded functions.
-/

namespace FRECX

/-- Account / masternode address (`common.Address`). -/
abbrev Addr := Nat

/-- A byte string (`[]byte`); each entry is one byte value. -/
abbrev Bytes := List Nat

/-- A block hash (`common.Hash`), kept as its byte string. -/
abbrev Hash := List Nat

/-! ### Reward distribution engine (`GetRewardBalancesRate`, utils.go lines 465-551) -/

/-- The state accessors `GetRewardBalancesRate` consults
(`core/state` collaborator functions, §6 of the spec). -/
structure RewardState where
  getCandidateOwner : Addr → Addr
  getCandidateCap : Addr → Int
  getVoters : Addr → List Addr
  getVoterCap : Addr → Addr → Int

/-- utils.go line 475: `targetValue.SetString("50000000000000000000000", 10)`. -/
def targetValue : Int := 50000000000000000000000

/-- `common.RewardMasterPercent`; utils.go line 483 records its value in the
comment `//50`. -/
def RewardMasterPercent : Int := 50

/-- `common.RewardSyncPercent`; utils.go line 486 records its value in the
comment `//40`. -/
def RewardSyncPercent : Int := 40

/-- Modelled from the spec: `common.RewardVoterPercent` is not under `src/`;
the spec (§4.4) states the voter percentage is "currently configured as 0%,
making voter payouts a no-op in practice". -/
def RewardVoterPercent : Int := 0

/-- Go map write `m[k] = v` on an association list: overwrite the existing
binding if the key is present, otherwise append a new binding. -/
def assocSet (l : List (Addr × Int)) (k : Addr) (v : Int) : List (Addr × Int) :=
  if (l.lookup k).isSome then l.map (fun p => if p.1 = k then (k, v) else p)
  else l ++ [(k, v)]

/-- utils.go lines 511-520: collect the voter capacities for a masternode.
A voter address already present in `voterCaps` is skipped only once
`common.TIP2019Block <= blockNumber` (the pre-upgrade path re-reads and
re-adds the cap of a duplicate voter).  `TIP2019Block` is a chain-config
constant not under `src/`, so it stays a parameter. -/
def collectVoterCaps (st : RewardState) (masterAddr : Addr) (tip2019Block blockNumber : Nat)
    (voters : List Addr) : List (Addr × Int) × Int :=
  voters.foldl
    (fun acc voteAddr =>
      if (acc.1.lookup voteAddr).isSome ∧ tip2019Block ≤ blockNumber then acc
      else
        let voterCap := st.getVoterCap masterAddr voteAddr
        (assocSet acc.1 voteAddr voterCap, acc.2 + voterCap))
    ([], 0)

/-- utils.go lines 521-534: distribute `totalVoterReward` pro-rata over the
collected voter caps, adding to any existing balance entry. -/
def distributeVoterRewards (totalVoterReward totalCap : Int)
    (voterCaps : List (Addr × Int)) (balances : Addr → Option Int) : Addr → Option Int :=
  voterCaps.foldl
    (fun b p =>
      if p.2 > 0 then
        let rcap := totalVoterReward * p.2 / totalCap
        fun a => if a = p.1 then some ((b p.1).getD 0 + rcap) else b a
      else b)
    balances

/-- utils.go lines 499-535: if the masternode has voters, collect their
caps and, when the total cap is positive, distribute
`RewardVoterPercent`% of the total reward pro-rata on top of the existing
balances. -/
def applyVoterRewards (st : RewardState) (masterAddr : Addr) (tip2019Block blockNumber : Nat)
    (totalReward : Int) (balances : Addr → Option Int) : Addr → Option Int :=
  let voters := st.getVoters masterAddr
  if voters ≠ [] then
    let totalVoterReward := totalReward * RewardVoterPercent / 100
    let capsTotal := collectVoterCaps st masterAddr tip2019Block blockNumber voters
    if capsTotal.2 > 0 then
      distributeVoterRewards totalVoterReward capsTotal.2 capsTotal.1 balances
    else balances
  else balances

/-- utils.go lines 465-551, `GetRewardBalancesRate`.  The resulting balances
map is embedded as `Addr → Option Int` (`none` = key absent).
`rewardFoundationPercent` embeds `common.RewardFoundationPercent`, whose
value is not under `src/`.  Note line 467 computes the candidate owner but
lines 496/541 assign the shares to `masterAddr` and
`foundationWalletAddr`; the owner is only logged. -/
def GetRewardBalancesRate (rewardFoundationPercent : Int) (tip2019Block : Nat)
    (st : RewardState) (foundationWalletAddr masterAddr : Addr)
    (totalReward : Int) (blockNumber : Nat) : Addr → Option Int :=
  let _owner := st.getCandidateOwner masterAddr
  let stakeCap := st.getCandidateCap masterAddr
  let rewardPercent : Int :=
    if stakeCap = targetValue then RewardMasterPercent else RewardSyncPercent
  let reward := totalReward * rewardPercent / 100
  let balances : Addr → Option Int := fun a => if a = masterAddr then some reward else none
  let balances := applyVoterRewards st masterAddr tip2019Block blockNumber totalReward balances
  let foundationReward := totalReward * rewardFoundationPercent / 100
  fun a => if a = foundationWalletAddr then some foundationReward else balances a

/-! ### Per-signer reward split (`CalculateRewardForSigner`, utils.go lines 426-448) -/

/-- utils.go lines 426-448.  The signer map is embedded as an association
list of (address, sign count); for each signer the reward is
`chainReward Div totalSigner Mul signCount` (`big.Int.Div` then
`big.Int.Mul`, in that order).  The `json.Marshal` logging step cannot
fail on this data and is dropped, so the always-`nil` error is omitted. -/
def CalculateRewardForSigner (chainReward : Int) (signers : List (Addr × Nat))
    (totalSigner : Nat) : List (Addr × Int) :=
  if totalSigner > 0 then
    signers.map (fun p => (p.1, chainReward / Int.ofNat totalSigner * Int.ofNat p.2))
  else []

/-! ### Counterexample state for claim C1 -/

/-- A state in which the candidate owner of masternode `2` is address `1`
(distinct from the masternode address), the stake cap is exactly
`targetValue`, and there are no voters. -/
def cexOwnerState : RewardState where
  getCandidateOwner := fun _ => 1
  getCandidateCap := fun _ => targetValue
  getVoters := fun _ => []
  getVoterCap := fun _ _ => 0

/-! ### Deterministic shuffle engine (`GenM2FromRandomize`, utils.go lines 263-287) -/

/-- utils.go lines 554-562, `NewSlice`: `make([]int64, end-start)` then
`s[i] = start; start += step`, so `s[k] = start + step*k`.  Go panics when
`end - start` is negative; the embedding returns `[]` there (outside every
claim's domain, which has `end ≥ 1 > 0 = start`). -/
def NewSlice (start finish step : Int) : List Int :=
  (List.range (finish - start).toNat).map (fun k => start + step * Int.ofNat k)

/-- `int64` wrap-around of an unbounded integer (Go `int64` addition
overflows by wrapping modulo `2^64` into `[-2^63, 2^63)`). -/
def int64Wrap (x : Int) : Int := (x + 2 ^ 63) % 2 ^ 64 - 2 ^ 63

/-- The sum `total += j` over the randomize values, in wrapping `int64`
arithmetic (utils.go lines 267-271). -/
def int64Sum (randomizes : List Int) : Int :=
  randomizes.foldl (fun t j => int64Wrap (t + j)) 0

/-- State of the global `math/rand` generator.  The external generator is
deterministic: after `rand.Seed(s)` the sequence of draws is a function of
`s` alone, so the state is embedded as the seed plus the number of draws
consumed since seeding.  The draw function itself (how Go's generator turns
seed and position into a value) is the external parameter
`f : seed → draw index → bound → value`, with the `rand.Intn` contract that
the value is in `[0, bound)`. -/
structure GoRand where
  seed : Int
  count : Nat

/-- `rand.Seed(s)`: reset the global generator, discarding its prior state. -/
def randSeed (s : Int) : GoRand := ⟨s, 0⟩

/-- `rand.Intn(bound)` on the global generator with draw function `f`. -/
def randIntn (f : Int → Nat → Nat → Nat) (g : GoRand) (bound : Nat) : Nat × GoRand :=
  (f g.seed g.count bound, ⟨g.seed, g.count + 1⟩)

/-- The loop of `GenM2FromRandomize` (utils.go lines 273-284), with fuel
equal to the length of `blockValidator`; the Go loop variable `i` always
equals `len(blockValidator) - 1` at the top of an iteration, since each
iteration removes exactly one element.  Each step: clamp
`blockLength := len-1` up to at least 1, draw `randomIndex`, swap positions
`randomIndex` and `i`, remove position `i`, and record the swapped-out
value into `randIndexs[i]` — so the output list is built back-to-front.
`rand.Intn` never draws out of range, so the `getD` defaults are dead. -/
def genM2Loop (f : Int → Nat → Nat → Nat) : Nat → GoRand → List Int → List Int × GoRand
  | 0, g, _ => ([], g)
  | n + 1, g, bv =>
    let i := bv.length - 1
    let bl0 := bv.length - 1
    let bl := if bl0 ≤ 1 then 1 else bl0
    let drawn := randIntn f g bl
    let ri := drawn.1
    let temp := bv.getD ri 0
    let bv1 := (bv.set ri (bv.getD i 0)).set i temp
    let bv2 := bv1.eraseIdx i
    let rec2 := genM2Loop f n drawn.2 bv2
    (rec2.1 ++ [temp], rec2.2)

/-- utils.go lines 263-287, `GenM2FromRandomize`: seed the global generator
with the wrapping `int64` sum of the randomize values, then shuffle
`NewSlice(0, lenSigners, 1)`.  The incoming global generator state `g0` is
what `rand.Seed` overwrites; the Go function also returns an always-`nil`
error, omitted here. -/
def GenM2FromRandomize (f : Int → Nat → Nat → Nat) (g0 : GoRand)
    (randomizes : List Int) (lenSigners : Int) : List Int × GoRand :=
  let _ := g0
  let blockValidator := NewSlice 0 lenSigners 1
  let total := int64Sum randomizes
  let g := randSeed total
  genM2Loop f blockValidator.length g blockValidator

/-! ### Crypto commit-reveal helper (`Encrypt`/`Decrypt`, utils.go lines 581-632) -/

/-- `aes.BlockSize`. -/
def aesBlockSize : Nat := 16

/-- Byte-wise XOR of two byte strings (`XORKeyStream`), truncated to the
shorter input. -/
def xorBytes (a b : Bytes) : Bytes := List.zipWith (fun x y => x ^^^ y) a b

/-- CFB-mode encryption as performed by `cipher.NewCFBEncrypter` +
`XORKeyStream`: the first keystream block is `E(iv)`, each later keystream
block is `E` of the previous ciphertext block, and the plaintext is XORed
16 bytes at a time (the final block may be partial).  `E` is the external
AES block-encryption function of the key.  The loop is written with
structural fuel (one unit per 16-byte block, so `pt.length` units always
suffice) to keep it kernel-evaluable. -/
def cfbEncryptLoop (E : Bytes → Bytes) : Nat → Bytes → Bytes → Bytes
  | 0, _, _ => []
  | fuel + 1, iv, pt =>
    if pt = [] then []
    else
      let ks := E iv
      let chunk := pt.take aesBlockSize
      let ctChunk := xorBytes chunk ks
      ctChunk ++ cfbEncryptLoop E fuel ctChunk (pt.drop aesBlockSize)

/-- CFB encryption of a whole plaintext. -/
def cfbEncrypt (E : Bytes → Bytes) (iv pt : Bytes) : Bytes :=
  cfbEncryptLoop E pt.length iv pt

/-- CFB-mode decryption as performed by `cipher.NewCFBDecrypter` +
`XORKeyStream`: same keystream, reconstructed from the ciphertext blocks
themselves. -/
def cfbDecryptLoop (E : Bytes → Bytes) : Nat → Bytes → Bytes → Bytes
  | 0, _, _ => []
  | fuel + 1, iv, ct =>
    if ct = [] then []
    else
      let ks := E iv
      let chunk := ct.take aesBlockSize
      let ptChunk := xorBytes chunk ks
      ptChunk ++ cfbDecryptLoop E fuel chunk (ct.drop aesBlockSize)

/-- CFB decryption of a whole ciphertext. -/
def cfbDecrypt (E : Bytes → Bytes) (iv ct : Bytes) : Bytes :=
  cfbDecryptLoop E ct.length iv ct

/-- utils.go lines 581-605, `Encrypt`.  `aesCipher` embeds `aes.NewCipher`
(`none` = invalid key length, the error branch returning `""`); `ivOpt`
embeds the `io.ReadFull(rand.Reader, iv)` read of a fresh random IV
(`none` = randomness-source failure, also returning `""`); `b64enc` embeds
`base64.URLEncoding.EncodeToString`.  The IV is prepended to the
ciphertext before encoding. -/
def Encrypt (aesCipher : Bytes → Option (Bytes → Bytes)) (ivOpt : Option Bytes)
    (b64enc : Bytes → String) (key : Bytes) (text : Bytes) : String :=
  match aesCipher key with
  | none => ""
  | some E =>
    match ivOpt with
    | none => ""
    | some iv => b64enc (iv ++ cfbEncrypt E iv text)

/-- utils.go lines 608-632, `Decrypt`.  `b64dec` embeds
`base64.URLEncoding.DecodeString` (whose error the Go code ignores); an
input shorter than the AES block size returns `""` (embedded as `[]`),
otherwise the leading 16 bytes are split off as the IV and the rest is
CFB-decrypted in place.  The Go function returns the plaintext as a
string; the embedding keeps its bytes. -/
def Decrypt (aesCipher : Bytes → Option (Bytes → Bytes)) (b64dec : String → Bytes)
    (key : Bytes) (cryptoText : String) : Bytes :=
  let ciphertext := b64dec cryptoText
  match aesCipher key with
  | none => []
  | some E =>
    if ciphertext.length < aesBlockSize then []
    else
      let iv := ciphertext.take aesBlockSize
      let rest := ciphertext.drop aesBlockSize
      cfbDecrypt E iv rest

/-! ### Reward computation engine (`GetRewardForCheckpoint`, utils.go lines 333-423) -/

/-- A block header: its number, its parent's hash, and its own hash
(`header.Hash()` is embedded as a stored field). -/
structure Header where
  number : Nat
  parentHash : Hash
  hash : Hash
deriving DecidableEq

/-- A sign transaction as the walk uses it: its call data and its sender
(`tx.Data()` and `*tx.From()`). -/
structure Tx where
  data : Bytes
  sender : Addr
deriving DecidableEq

/-- A Go runtime panic (nil-pointer dereference).  `GetRewardForCheckpoint`
performs no nil checks on the headers and blocks the chain reader returns,
so a missing header or block does not surface as a returned error. -/
inductive GoPanic
  | nilDeref
deriving DecidableEq

/-- The chain reader, signing-transaction cache and config collaborators
consumed by `GetRewardForCheckpoint` (spec §6).  `getBlockTxs` embeds
`chain.GetBlock(hash, number)` followed by `block.Transactions()` (`none`
= missing block, on which that call dereferences nil).
`common.MergeSignRange` is a constant not under `src/`, so it stays a
field here. -/
structure CkptCtx where
  getHeader : Hash → Nat → Option Header
  getBlockTxs : Hash → Nat → Option (List Tx)
  getCachedSigningTxs : Hash → Option (List Tx)
  cacheSigningTxs : Hash → List Tx → List Tx
  getBlockReceipts : Hash → Nat → List Nat
  cacheNoneTIPSigningTxs : Header → List Tx → List Nat → List Tx
  isTIPSigning : Nat → Bool
  isTIP2019 : Nat → Bool
  epoch : Nat
  mergeSignRange : Nat
  getMasternodes : Header → List Addr

/-- `header.ParentHash` on a possibly-nil header pointer: dereferencing nil
panics. -/
def hdrParentHash : Option Header → Except GoPanic Hash
  | none => .error .nilDeref
  | some h => .ok h.parentHash

/-- `rlpHash` of the nil `*types.Header`: the RLP encoding of a nil struct
pointer is the fixed empty list, so `header.Hash()` on nil is a fixed hash
value rather than a panic. -/
def nilHeaderHash : Hash := List.replicate 32 192

/-- `header.Hash()` on a possibly-nil header pointer. -/
def hdrHash : Option Header → Hash
  | none => nilHeaderHash
  | some h => h.hash

/-- Go's zero `common.Hash`, the value a missing key yields in
`mapBlkHash`. -/
def zeroHash : Hash := List.replicate 32 0

/-- The trailing 32 bytes of a sign transaction's call data, the block hash
the transaction commits to (utils.go line 370).  Go would panic on call
data shorter than 32 bytes; sign transactions always carry a full method
selector plus two 32-byte words, so that case is dead. -/
def txBlockHash (tx : Tx) : Hash := tx.data.drop (tx.data.length - 32)

/-- One iteration of the walk-back loop (utils.go lines 349-374) at block
number `i`, carrying the possibly-nil current header, `mapBlkHash` and the
`data` map from referenced block hash to the senders of sign transactions
referencing it. -/
def walkStep (ctx : CkptCtx) (oh : Option Header) (i : Nat)
    (mp : Nat → Hash) (data : Hash → List Addr) :
    Except GoPanic (Option Header × (Nat → Hash) × (Hash → List Addr)) := do
  let ph ← hdrParentHash oh
  let oh' := ctx.getHeader ph i
  let h' := hdrHash oh'
  let mp' := fun n => if n = i then h' else mp n
  let txs ←
    match ctx.getCachedSigningTxs h' with
    | some signData => Except.ok signData
    | none =>
      match ctx.getBlockTxs h' i with
      | none => Except.error GoPanic.nilDeref
      | some txs0 =>
        match oh' with
        | none => Except.error GoPanic.nilDeref
        | some hh =>
          if !ctx.isTIPSigning hh.number then
            Except.ok (ctx.cacheNoneTIPSigningTxs hh txs0 (ctx.getBlockReceipts h' i))
          else
            Except.ok (ctx.cacheSigningTxs h' txs0)
  let data' := txs.foldl
    (fun d tx =>
      let bh := txBlockHash tx
      fun hh => if hh = bh then d hh ++ [tx.sender] else d hh)
    data
  return (oh', mp', data')

/-- The walk-back loop over the descending block numbers `is`. -/
def walkLoop (ctx : CkptCtx) : List Nat → Option Header → (Nat → Hash) →
    (Hash → List Addr) →
    Except GoPanic (Option Header × (Nat → Hash) × (Hash → List Addr))
  | [], oh, mp, data => .ok (oh, mp, data)
  | i :: rest, oh, mp, data => do
    let st ← walkStep ctx oh i mp data
    walkLoop ctx rest st.1 st.2.1 st.2.2

/-- The descending walk range: from `prevCheckpoint + rCheckpoint*2 - 1`
(the checkpoint header's parent) down to `startBlockNumber =
prevCheckpoint + 1`.  `uint64` wrap-around of `number - rCheckpoint*2`
(possible only when `number < 2*rCheckpoint`) is not modelled; every claim
here is about the non-underflowing regime. -/
def walkIndices (number rcp : Nat) : List Nat :=
  (List.range' ((number - rcp * 2) + 1) (rcp * 2 - 1)).reverse

/-- Go map increment `signers[addr].Sign++` with insertion of a fresh
`rewardLog{1, 0}` when absent (utils.go lines 407-415). -/
def bumpSign (l : List (Addr × Nat)) (a : Addr) : List (Addr × Nat) :=
  if (l.lookup a).isSome then l.map (fun p => if p.1 = a then (p.1, p.2 + 1) else p)
  else l ++ [(a, 1)]

/-- The position-in-epoch eligibility rule of utils.go line 390: a block
contributes signer credit only if `i % epoch < MergeSignRange`, or
`i % MergeSignRange == 0`, or `IsTIP2019(i)` is false. -/
def eligibleBlock (epoch mergeSignRange : Nat) (isTIP2019 : Nat → Bool) (i : Nat) : Bool :=
  decide (i % epoch < mergeSignRange) || decide (i % mergeSignRange = 0) || !isTIP2019 i

/-- The masternodes credited for one block: the deduplicated set of
masternodes appearing among the senders that referenced the block's hash
(utils.go lines 394-405; `addrSigners` is a Go set, embedded as a
deduplicated list). -/
def creditedSigners (masternodes addrs : List Addr) : List Addr :=
  (masternodes.filter (fun m => decide (m ∈ addrs))).dedup

/-- The tally loop of utils.go lines 382-418 over the reward window
`[startBlockNumber, endBlockNumber]`, threading the signer map and the
`totalSigner` counter. -/
def tallySigners (epoch mergeSignRange : Nat) (isTIP2019 : Nat → Bool)
    (masternodes : List Addr) (mp : Nat → Hash) (data : Hash → List Addr)
    (start rcp : Nat) (signers0 : List (Addr × Nat)) (t0 : Nat) :
    List (Addr × Nat) × Nat :=
  (List.range' start rcp).foldl
    (fun st i =>
      if eligibleBlock epoch mergeSignRange isTIP2019 i then
        let addrs := data (mp i)
        if addrs ≠ [] then
          (creditedSigners masternodes addrs).foldl
            (fun st2 a => (bumpSign st2.1 a, st2.2 + 1)) st
        else st
      else st)
    (signers0, t0)

/-- Outcome of `GetRewardForCheckpoint`: a normal return of the signer map
plus the incremented `totalSigner` counter, a returned non-nil Go error
(the function's second return value — no code path produces one), or a
runtime panic. -/
inductive CheckpointResult
  | ok (signers : List (Addr × Nat)) (totalSigner : Nat)
  | goError
  | panic
deriving DecidableEq

/-- utils.go lines 333-423, `GetRewardForCheckpoint`.  Walks the parent
chain from the checkpoint header's parent back to
`prevCheckpoint + 1`, collecting sign-transaction senders per referenced
block hash, reads the masternode list from the `prevCheckpoint` header
(a nil header there makes `GetMasternodesFromCheckpointHeader` dereference
nil), then tallies signer credit over the window
`[prevCheckpoint + 1, prevCheckpoint + rCheckpoint]`.  `totalSigner0` is
the value behind the caller's `*totalSigner` pointer. -/
def GetRewardForCheckpoint (ctx : CkptCtx) (header : Header) (rcp : Nat)
    (totalSigner0 : Nat) : CheckpointResult :=
  let number := header.number
  let prevCheckpoint := number - rcp * 2
  let startBlockNumber := prevCheckpoint + 1
  match walkLoop ctx (walkIndices number rcp) (some header)
      (fun _ => zeroHash) (fun _ => []) with
  | .error _ => .panic
  | .ok (oh, mp, data) =>
    match hdrParentHash oh with
    | .error _ => .panic
    | .ok ph =>
      match ctx.getHeader ph prevCheckpoint with
      | none => .panic
      | some hPrev =>
        let masternodes := ctx.getMasternodes hPrev
        let tally := tallySigners ctx.epoch ctx.mergeSignRange ctx.isTIP2019
          masternodes mp data startBlockNumber rcp [] totalSigner0
        .ok tally.1 tally.2

/-- The walk-back never encounters missing data: starting from the
checkpoint header `h`, the header lookup at every walk index `i` finds
the next header, at each found header its sign data is available (a
cached entry, or — the cache-miss path — the block itself), and at the
end the `prevCheckpoint` header fetch of utils.go line 375 also finds a
header.  The chain of lookups is deterministic in `ctx` and `h`, so the
negation of this predicate says exactly that the walk-back encounters a
missing header or block somewhere. -/
inductive CheckpointLookupsOk (ctx : CkptCtx) (prevCheckpoint : Nat) :
    List Nat → Header → Prop
  | nil (h : Header) :
      (ctx.getHeader h.parentHash prevCheckpoint).isSome = true →
      CheckpointLookupsOk ctx prevCheckpoint [] h
  | cons (i : Nat) (rest : List Nat) (h h' : Header) :
      ctx.getHeader h.parentHash i = some h' →
      ((ctx.getCachedSigningTxs h'.hash).isSome = true ∨
        (ctx.getBlockTxs h'.hash i).isSome = true) →
      CheckpointLookupsOk ctx prevCheckpoint rest h' →
      CheckpointLookupsOk ctx prevCheckpoint (i :: rest) h

/-! ### Signing/randomize transaction builder (`CreateTransactionSign`, utils.go lines 65-177) -/

/-- External collaborators of `CreateTransactionSign`.  Each fallible or
stateful external call is an oracle indexed by its occurrence number
within the call: `getNonce k` is the result of the `k`-th
`pool.State().GetNonce`, `signTxErr k` the error (if any) of the `k`-th
`wallet.SignTx`, `addLocalErr k` the error (if any) of the `k`-th
`pool.AddLocal`; errors are opaque codes.  `randKey` is the
`RandStringByte(32)` output, external randomness.  The epoch thresholds
`common.EpocBlockSecret` / `EpocBlockOpening` / `EpocBlockRandomize` are
constants not under `src/` and stay fields here.  The account/wallet
resolution of utils.go lines 69-86 always yields some account and is
abstracted away. -/
structure TxEnv where
  s2posEnabled : Bool
  epoch : Nat
  epocBlockSecret : Nat
  epocBlockOpening : Nat
  epocBlockRandomize : Nat
  getNonce : Nat → Nat
  signTxErr : Nat → Option Nat
  addLocalErr : Nat → Option Nat
  randKey : Bytes

/-- Occurrence counters for the three oracles. -/
structure Oracles where
  nonceIdx : Nat
  signIdx : Nat
  addIdx : Nat
deriving DecidableEq

/-- Trace of the sign-transaction submission loop: how many `AddLocal`
attempts were made, which nonce each attempt used, and how many
`GetNonce` reads happened (including the initial one). -/
structure SignTrace where
  attempts : Nat
  noncesUsed : List Nat
  nonceReads : Nat
deriving DecidableEq

/-- The retry loop of utils.go lines 90-109: build and sign the sign
transaction, try `pool.AddLocal`; on failure re-read the nonce, and once
`retryCount >= 10` return the last submission error.  The loop body runs
at most 10 times (retryCount 1..10), so fuel 10 is exact; the fuel-0
branch is unreachable from `CreateTransactionSign` and returns a dummy
error. -/
def signLoop (env : TxEnv) : Nat → Nat → Nat → Oracles → SignTrace →
    Option Nat × Oracles × SignTrace
  | 0, _, _, o, tr => (some 0, o, tr)
  | fuel + 1, retryCount, nonce, o, tr =>
    match env.signTxErr o.signIdx with
    | some e => (some e, { o with signIdx := o.signIdx + 1 }, tr)
    | none =>
      let o := { o with signIdx := o.signIdx + 1 }
      let tr := { tr with attempts := tr.attempts + 1, noncesUsed := tr.noncesUsed ++ [nonce] }
      match env.addLocalErr o.addIdx with
      | none => (none, { o with addIdx := o.addIdx + 1 }, tr)
      | some e =>
        let o := { o with addIdx := o.addIdx + 1 }
        let newNonce := env.getNonce o.nonceIdx
        let o := { o with nonceIdx := o.nonceIdx + 1 }
        let tr := { tr with nonceReads := tr.nonceReads + 1 }
        if retryCount ≥ 10 then (some e, o, tr)
        else signLoop env fuel (retryCount + 1) newNonce o tr

/-- Result of one `CreateTransactionSign` call: the returned error (`none`
= nil), the `randomizeKey` entry of the local store after the call, the
sign-loop trace, and which of the secret-commit / opening-reveal
transactions were built (branch entered) and successfully added to the
pool. -/
structure CTSRes where
  err : Option Nat
  db : Option Bytes
  trace : SignTrace
  secretTried : Bool
  secretAdded : Bool
  openingTried : Bool
  openingAdded : Bool
deriving DecidableEq

/-- The secret branch of utils.go lines 119-143: generate and encrypt a
random secret (`BuildTxSecretRandomize` itself always returns a nil
error), sign, add to the pool, and only then persist the randomize key.
Returns the error (if any), the store entry after the branch, and the
advanced oracle counters; oracle counters continue from the sign loop. -/
def secretPhase (env : TxEnv) (db : Option Bytes) (o : Oracles) :
    Option Nat × Option Bytes × Oracles :=
  match env.signTxErr o.signIdx with
  | some e => (some e, db, ⟨o.nonceIdx + 1, o.signIdx + 1, o.addIdx⟩)
  | none =>
    match env.addLocalErr o.addIdx with
    | some e => (some e, db, ⟨o.nonceIdx + 1, o.signIdx + 1, o.addIdx + 1⟩)
    | none => (none, some env.randKey, ⟨o.nonceIdx + 1, o.signIdx + 1, o.addIdx + 1⟩)

/-- The opening branch of utils.go lines 146-173: read the persisted key
with `chainDb.Get` (its error path returns immediately), build the opening
transaction, sign, add to the pool, and only then delete the key from the
store. -/
def openingPhase (env : TxEnv) (db : Option Bytes) (o : Oracles) :
    Option Nat × Option Bytes × Oracles :=
  match db with
  | none => (some 0, db, o)
  | some _ =>
    match env.signTxErr o.signIdx with
    | some e => (some e, db, ⟨o.nonceIdx + 1, o.signIdx + 1, o.addIdx⟩)
    | none =>
      match env.addLocalErr o.addIdx with
      | some e => (some e, db, ⟨o.nonceIdx + 1, o.signIdx + 1, o.addIdx + 1⟩)
      | none => (none, none, ⟨o.nonceIdx + 1, o.signIdx + 1, o.addIdx + 1⟩)

/-- utils.go lines 65-177, `CreateTransactionSign` (body under the
`TxSignMu` lock).  After the sign-transaction loop, `checkNumber :=
blockNumber % Epoch` and `exist := chainDb.Has("randomizeKey")` are
computed once; then the secret `if` and the opening `if` are checked in
sequence, both against that same stale `exist`: the secret branch requires
`!exist && checkNumber > 0 && EpocBlockSecret <= checkNumber &&
EpocBlockOpening > checkNumber`, the opening branch `exist &&
checkNumber > 0 && EpocBlockOpening <= checkNumber && EpocBlockRandomize
>= checkNumber`.  A failed branch returns its error immediately.  `db0`
is the store entry for `randomizeKey` at entry.  Go panics when
`Epoch = 0` (modulo by zero); claims assume a positive epoch. -/
def CreateTransactionSign (env : TxEnv) (blockNumber : Nat) (db0 : Option Bytes) : CTSRes :=
  if env.s2posEnabled then
    let nonce0 := env.getNonce 0
    let o0 : Oracles := ⟨1, 0, 0⟩
    let tr0 : SignTrace := ⟨0, [], 1⟩
    let loopRes := signLoop env 10 1 nonce0 o0 tr0
    match loopRes.1 with
    | some e =>
      { err := some e, db := db0, trace := loopRes.2.2, secretTried := false,
        secretAdded := false, openingTried := false, openingAdded := false }
    | none =>
      let o := loopRes.2.1
      let tr := loopRes.2.2
      let checkNumber := blockNumber % env.epoch
      let exist := db0.isSome
      let cSecret := !exist && decide (checkNumber > 0) &&
        decide (env.epocBlockSecret ≤ checkNumber) && decide (env.epocBlockOpening > checkNumber)
      let cOpening := exist && decide (checkNumber > 0) &&
        decide (env.epocBlockOpening ≤ checkNumber) && decide (env.epocBlockRandomize ≥ checkNumber)
      let afterSecret := if cSecret then secretPhase env db0 o else (none, db0, o)
      match afterSecret.1 with
      | some e =>
        { err := some e, db := afterSecret.2.1, trace := tr, secretTried := cSecret,
          secretAdded := false, openingTried := false, openingAdded := false }
      | none =>
        let afterOpening :=
          if cOpening then openingPhase env afterSecret.2.1 afterSecret.2.2
          else (none, afterSecret.2.1, afterSecret.2.2)
        { err := afterOpening.1, db := afterOpening.2.1, trace := tr,
          secretTried := cSecret, secretAdded := cSecret,
          openingTried := cOpening, openingAdded := cOpening && afterOpening.1.isNone }
  else
    { err := none, db := db0, trace := ⟨0, [], 0⟩, secretTried := false, secretAdded := false,
      openingTried := false, openingAdded := false }

/-! ### Concrete instances used by counterexamples and witnesses -/

/-- A 32-byte hash whose last byte is `n`, used as block hash of block `n`
in concrete chains. -/
def hashOfNum (n : Nat) : Hash := List.replicate 31 0 ++ [n]

/-- Header of block `n` in the concrete chains below. -/
def witHeader (n : Nat) : Header := ⟨n, hashOfNum (n - 1), hashOfNum n⟩

/-- A sign transaction from address `77` whose call data's trailing 32
bytes are the hash of block `3`. -/
def witSignTx : Tx := ⟨List.replicate 4 7 ++ hashOfNum 3, 77⟩

/-- A chain reader in which every header and block lookup misses. -/
def cexMissingCtx : CkptCtx where
  getHeader := fun _ _ => none
  getBlockTxs := fun _ _ => none
  getCachedSigningTxs := fun _ => none
  cacheSigningTxs := fun _ txs => txs
  getBlockReceipts := fun _ _ => []
  cacheNoneTIPSigningTxs := fun _ txs _ => txs
  isTIPSigning := fun _ => true
  isTIP2019 := fun _ => true
  epoch := 10
  mergeSignRange := 5
  getMasternodes := fun _ => []

/-- A chain reader whose headers all resolve but whose blocks are all
missing, with an empty signing-transaction cache. -/
def cexMissingBlockCtx : CkptCtx where
  getHeader := fun ph n => if ph = hashOfNum n then some (witHeader n) else none
  getBlockTxs := fun _ _ => none
  getCachedSigningTxs := fun _ => none
  cacheSigningTxs := fun _ txs => txs
  getBlockReceipts := fun _ _ => []
  cacheNoneTIPSigningTxs := fun _ txs _ => txs
  isTIPSigning := fun _ => true
  isTIP2019 := fun _ => true
  epoch := 10
  mergeSignRange := 5
  getMasternodes := fun _ => []

/-- A fully resolving two-checkpoint chain: headers follow `witHeader`,
the signing-transaction cache holds `witSignTx` for block `3`, and the
masternode set is `[77]`. -/
def witCkptCtx : CkptCtx where
  getHeader := fun ph n => if ph = hashOfNum n then some (witHeader n) else none
  getBlockTxs := fun _ _ => none
  getCachedSigningTxs := fun h => if h = hashOfNum 3 then some [witSignTx] else none
  cacheSigningTxs := fun _ txs => txs
  getBlockReceipts := fun _ _ => []
  cacheNoneTIPSigningTxs := fun _ txs _ => txs
  isTIPSigning := fun _ => true
  isTIP2019 := fun _ => true
  epoch := 10
  mergeSignRange := 5
  getMasternodes := fun _ => [77]

/-- A trivial injective byte-to-string codec standing in for the external
base64 URL encoding in witnesses: one character per byte. -/
def byteStringEnc (bs : Bytes) : String := String.mk (bs.map Char.ofNat)

/-- Inverse of `byteStringEnc` on byte values. -/
def byteStringDec (s : String) : Bytes := s.toList.map Char.toNat

/-- A stand-in external block function for witnesses: constant 16-byte
output, satisfying the block-length contract assumed of AES. -/
def witBlockE : Bytes → Bytes := fun _ => List.replicate 16 3

/-- A stand-in `aes.NewCipher`: succeeds exactly on the valid AES key
lengths. -/
def witAes : Bytes → Option (Bytes → Bytes) :=
  fun k => if k.length = 16 ∨ k.length = 24 ∨ k.length = 32 then some witBlockE else none

/-- A transaction environment in which every `AddLocal` submission fails
with a distinct error code. -/
def witTxEnvAllFail : TxEnv where
  s2posEnabled := true
  epoch := 30
  epocBlockSecret := 5
  epocBlockOpening := 10
  epocBlockRandomize := 15
  getNonce := fun k => k
  signTxErr := fun _ => none
  addLocalErr := fun k => some (100 + k)
  randKey := List.replicate 32 97

/-- A transaction environment in which every external call succeeds. -/
def witTxEnvOk : TxEnv where
  s2posEnabled := true
  epoch := 30
  epocBlockSecret := 5
  epocBlockOpening := 10
  epocBlockRandomize := 15
  getNonce := fun k => k
  signTxErr := fun _ => none
  addLocalErr := fun _ => none
  randKey := List.replicate 32 97

/-! ## Theorems -/

/-- Multiplying each signer count by a constant and summing equals the
constant times the summed counts. -/
theorem sum_map_mul_count (c : Int) (l : List (Addr × Nat)) :
    (l.map (fun p => c * (p.2 : Int))).sum = c * (((l.map Prod.snd).sum : Nat) : Int) := by
  induction l with
  | nil => simp
  | cons p t ih =>
    simp only [List.map_cons, List.sum_cons, ih]
    push_cast
    ring

/-- C3: for `totalSigner > 0`, `CalculateRewardForSigner` assigns each
signer exactly `floor(chainReward / totalSigner) * signCount` (integer
division before multiplication), the sum of the outputs is that quotient
times the total of the counts (so the truncation shortfall is never
redistributed), and on the spec's example `chainReward = 1000`,
`totalSigner = 3`, one signer with count 3, the reward is `999 < 1000`. -/
theorem calculateRewardForSigner_floor_per_signer (chainReward : Int)
    (signers : List (Addr × Nat)) (totalSigner : Nat) (h : 0 < totalSigner) :
    CalculateRewardForSigner chainReward signers totalSigner =
      signers.map (fun p =>
        (p.1, chainReward / Int.ofNat totalSigner * Int.ofNat p.2)) ∧
    ((CalculateRewardForSigner chainReward signers totalSigner).map Prod.snd).sum =
      chainReward / Int.ofNat totalSigner * (((signers.map Prod.snd).sum : Nat) : Int) ∧
    CalculateRewardForSigner 1000 [(7, 3)] 3 = [(7, 999)] ∧ (999 : Int) < 1000 := by
  refine ⟨by simp [CalculateRewardForSigner, h], ?_, by decide, by decide⟩
  simp only [CalculateRewardForSigner, h, if_pos, List.map_map]
  have := sum_map_mul_count (chainReward / Int.ofNat totalSigner) signers
  simpa [Function.comp] using this

/-- Witness for `calculateRewardForSigner_floor_per_signer` at
`chainReward = 1000`, a single signer `7` with count 3, `totalSigner = 3`. -/
theorem calculateRewardForSigner_floor_per_signer_witness :
    0 < 3 ∧ CalculateRewardForSigner 1000 [(7, 3)] 3 = [(7, 999)] :=
  ⟨by decide, (calculateRewardForSigner_floor_per_signer 1000 [(7, 3)] 3 (by decide)).2.2.1⟩

/-- C10: when the foundation wallet address is the masternode address
itself, the final foundation assignment overwrites the previously
assigned 40%/50% share, so the returned map binds that address to exactly
the foundation share. -/
theorem getRewardBalancesRate_foundation_overwrites_master (rfp : Int) (tip : Nat)
    (st : RewardState) (masterAddr : Addr) (totalReward : Int) (blockNumber : Nat) :
    GetRewardBalancesRate rfp tip st masterAddr masterAddr totalReward blockNumber
        masterAddr = some (totalReward * rfp / 100) := by
  simp [GetRewardBalancesRate]

/-- Counterexample to C1: in `cexOwnerState` the candidate owner of
masternode `2` is the distinct address `1` and the stake cap is exactly
the full-cap threshold, yet the returned balances bind nothing to the
owner — the 50% share is bound to the masternode address `2` instead of
the owner looked up via the candidate-owner accessor. -/
theorem getRewardBalancesRate_owner_unpaid_cex :
    cexOwnerState.getCandidateOwner 2 = 1 ∧
    cexOwnerState.getCandidateCap 2 = targetValue ∧
    (1 : Addr) ≠ 2 ∧
    GetRewardBalancesRate 10 0 cexOwnerState 3 2 100 0 1 = none ∧
    GetRewardBalancesRate 10 0 cexOwnerState 3 2 100 0 2 =
      some (100 * RewardMasterPercent / 100) := by
  refine ⟨rfl, rfl, by decide, by decide, by decide⟩

/-- With a zero total voter reward every pro-rata voter addition is zero,
so any existing balances binding survives `distributeVoterRewards`. -/
theorem distributeVoterRewards_zero_preserves (caps : List (Addr × Int)) (tc : Int)
    (b : Addr → Option Int) (a : Addr) (v : Int) (hb : b a = some v) :
    distributeVoterRewards 0 tc caps b a = some v := by
  induction caps generalizing b with
  | nil => simpa [distributeVoterRewards] using hb
  | cons p t ih =>
    simp only [distributeVoterRewards, List.foldl_cons] at *
    by_cases hp : p.2 > 0
    · simp only [hp, if_pos]
      apply ih
      by_cases ha : a = p.1
      · subst ha
        simp [hb]
      · simp [ha, hb]
    · simp only [hp, if_neg, not_false_iff]
      exact ih b hb

/-- Since `RewardVoterPercent = 0`, the voter-distribution step preserves
every existing balances binding. -/
theorem applyVoterRewards_preserves (st : RewardState) (masterAddr : Addr)
    (tip blockNumber : Nat) (totalReward : Int) (b : Addr → Option Int) (a : Addr) (v : Int)
    (hb : b a = some v) :
    applyVoterRewards st masterAddr tip blockNumber totalReward b a = some v := by
  unfold applyVoterRewards
  have htvr : totalReward * RewardVoterPercent / 100 = 0 := by
    simp [RewardVoterPercent, Int.zero_ediv]
  rw [htvr]
  split
  · dsimp only
    split
    · exact distributeVoterRewards_zero_preserves _ _ _ _ _ hb
    · exact hb
  · exact hb

/-- C1 (amended): `GetRewardBalancesRate` binds the 50%/40% share to the
masternode address itself (not its owner): 50% of `totalReward` when the
stake cap equals `50000000000000000000000` exactly and 40% otherwise,
while the foundation wallet address is always bound to
`RewardFoundationPercent`% of `totalReward` regardless of tier. -/
theorem getRewardBalancesRate_pays_masternode_address (rfp : Int) (tip : Nat)
    (st : RewardState) (foundationWalletAddr masterAddr : Addr) (totalReward : Int)
    (blockNumber : Nat) (hne : foundationWalletAddr ≠ masterAddr) :
    GetRewardBalancesRate rfp tip st foundationWalletAddr masterAddr totalReward blockNumber
        masterAddr =
      some (totalReward *
        (if st.getCandidateCap masterAddr = targetValue then RewardMasterPercent
          else RewardSyncPercent) / 100) ∧
    GetRewardBalancesRate rfp tip st foundationWalletAddr masterAddr totalReward blockNumber
        foundationWalletAddr = some (totalReward * rfp / 100) := by
  have hm : ¬ (masterAddr = foundationWalletAddr) := fun hc => hne hc.symm
  constructor
  · simp only [GetRewardBalancesRate]
    rw [if_neg hm]
    apply applyVoterRewards_preserves
    simp
  · simp [GetRewardBalancesRate]

/-- Witness for `getRewardBalancesRate_pays_masternode_address` at the
full-cap state `cexOwnerState`, foundation wallet `3`, masternode `2`,
total reward `100`. -/
theorem getRewardBalancesRate_pays_masternode_address_witness :
    (3 : Addr) ≠ 2 ∧
    GetRewardBalancesRate 10 0 cexOwnerState 3 2 100 0 2 =
      some (100 *
        (if cexOwnerState.getCandidateCap 2 = targetValue then RewardMasterPercent
          else RewardSyncPercent) / 100) ∧
    GetRewardBalancesRate 10 0 cexOwnerState 3 2 100 0 3 =
      some ((100 : Int) * 10 / 100) :=
  ⟨by decide,
    (getRewardBalancesRate_pays_masternode_address 10 0 cexOwnerState 3 2 100 0
      (by decide)).1,
    (getRewardBalancesRate_pays_masternode_address 10 0 cexOwnerState 3 2 100 0
      (by decide)).2⟩

/-- Setting an index does not change the prefix before it. -/
theorem take_set_self (l : List Int) (n : Nat) (a : Int) : (l.set n a).take n = l.take n := by
  induction l generalizing n with
  | nil => simp
  | cons x t ih =>
    cases n with
    | zero => simp
    | succ m => simp [List.set_cons_succ, List.take_succ_cons, ih]

/-- Swapping position `ri` with the last position and then moving the
swapped-out element to the back is a permutation: the net effect of one
shuffle step. -/
theorem swap_take_append_perm (l : List Int) (ri : Nat) (h : ri + 1 < l.length) :
    ((l.set ri (l.getD (l.length - 1) 0)).take (l.length - 1) ++ [l.getD ri 0]).Perm l := by
  set n := l.length - 1 with hn
  have hlen : l.length = n + 1 := by omega
  have hri : ri < l.length := by omega
  set c := l.getD ri 0 with hc
  set lst := l.getD n 0 with hlst
  set A := l.take ri with hA
  set D := l.drop (ri + 1) with hD
  have hAlen : A.length = ri := by rw [hA]; simp [List.length_take]; omega
  have hDlen : D.length = n - ri := by rw [hD]; simp [List.length_drop]; omega
  have hm : 1 ≤ n - ri := by omega
  have hset : l.set ri lst = A ++ lst :: D := List.set_eq_take_cons_drop lst hri
  have hldecomp : l = A ++ c :: D := by
    rw [hA, hD, hc, List.getD_eq_getElem l 0 hri]
    rw [← List.drop_eq_getElem_cons hri, List.take_append_drop]
  have hgl : D.getD (n - ri - 1) 0 = lst := by
    rw [hD, hlst]
    simp only [List.getD_eq_getElem?_getD, List.getElem?_drop]
    congr 2
    omega
  have htake : (l.set ri lst).take n = A ++ lst :: D.take (n - ri - 1) := by
    rw [hset, List.take_append_eq_append_take]
    congr 1
    · exact List.take_of_length_le (by omega)
    · rw [hAlen]
      have hk : n - ri = (n - ri - 1) + 1 := by omega
      conv_lhs => rw [hk]
      rw [List.take_succ_cons]
  have hDl : D.take (n - ri - 1) = D.dropLast := by
    rw [List.dropLast_eq_take, hDlen]
  have hDdecomp : D = D.dropLast ++ [lst] := by
    have h1 : n - ri - 1 < D.length := by omega
    conv_lhs => rw [← List.take_append_drop (n - ri - 1) D]
    rw [List.drop_eq_getElem_cons h1, ← List.getD_eq_getElem D 0 h1, hgl, ← hDl]
    congr 2
    rw [show n - ri - 1 + 1 = n - ri from by omega]
    exact List.drop_eq_nil_of_le (by omega)
  rw [htake, hDl]
  have key : ((A ++ lst :: D.dropLast) ++ [c]) = A ++ (lst :: (D.dropLast ++ [c])) := by simp
  rw [key]
  have hr : l = A ++ (c :: (D.dropLast ++ [lst])) := by
    rw [hldecomp, ← hDdecomp]
  rw [hr]
  apply List.Perm.append_left
  refine (List.Perm.cons lst (List.perm_append_singleton c _)).trans ?_
  have hswap : (lst :: c :: D.dropLast).Perm (c :: lst :: D.dropLast) := List.Perm.swap c lst _
  exact hswap.trans (List.Perm.cons c (List.perm_append_singleton lst _).symm)

/-- The shuffle loop emits a permutation of its working list, for any draw
function respecting the `rand.Intn` range contract. -/
theorem genM2Loop_perm (f : Int → Nat → Nat → Nat)
    (hf : ∀ s k b, 0 < b → f s k b < b) :
    ∀ (n : Nat) (g : GoRand) (bv : List Int), bv.length = n →
      ((genM2Loop f n g bv).1).Perm bv := by
  intro n
  induction n with
  | zero =>
    intro g bv hbv
    rw [List.length_eq_zero] at hbv
    subst hbv
    simp [genM2Loop]
  | succ m ih =>
    intro g bv hbv
    have hne : bv ≠ [] := by intro h0; subst h0; simp at hbv
    rw [genM2Loop]
    dsimp only [randIntn]
    have hi : bv.length - 1 = m := by omega
    rw [hi]
    set bl := if m ≤ 1 then 1 else m with hbl
    have hblpos : 0 < bl := by rw [hbl]; split <;> omega
    set ri := f g.seed g.count bl with hri
    have hrilt : ri < bl := hf _ _ _ hblpos
    have hrile : ri ≤ m := by
      rw [hbl] at hrilt
      by_cases hm1 : m ≤ 1 <;> simp [hm1] at hrilt <;> omega
    set temp := bv.getD ri 0 with htemp
    set lst := bv.getD m 0 with hlst
    have hb1len : ((bv.set ri lst).set m temp).length = m + 1 := by simp [hbv]
    have herase : ((bv.set ri lst).set m temp).eraseIdx m = (bv.set ri lst).take m := by
      rw [List.eraseIdx_eq_take_drop_succ]
      rw [List.drop_eq_nil_of_le (by omega), List.append_nil, take_set_self]
    rw [herase]
    have hlen2 : (List.take m (bv.set ri lst)).length = m := by simp [hbv]
    have hperm2 := ih ⟨g.seed, g.count + 1⟩ _ hlen2
    refine (List.Perm.append_right [temp] hperm2).trans ?_
    by_cases hm0 : m = 0
    · have hri0 : ri = 0 := by omega
      subst hm0
      obtain ⟨x, hx⟩ := List.length_eq_one.mp hbv
      subst hx
      rw [htemp, hri0]
      simp
    · have hlt : ri + 1 < bv.length := by
        rw [hbl] at hrilt
        by_cases hm1 : m ≤ 1 <;> simp [hm1] at hrilt <;> omega
      have hsw := swap_take_append_perm bv ri hlt
      rw [hi] at hsw
      exact hsw

/-- `NewSlice 0 n 1` is the increasing sequence `0, 1, ..., n-1`. -/
theorem newSlice_eq (n : Int) : NewSlice 0 n 1 = (List.range n.toNat).map Int.ofNat := by
  simp [NewSlice]

/-- `NewSlice 0 n 1` has no duplicates. -/
theorem newSlice_nodup (n : Int) : (NewSlice 0 n 1).Nodup := by
  rw [newSlice_eq]
  exact (List.nodup_range _).map (fun a b hab => Int.ofNat.inj hab)

/-- Every integer in `[0, n)` is an element of `NewSlice 0 n 1`. -/
theorem newSlice_mem (n m : Int) (h0 : 0 ≤ m) (h1 : m < n) : m ∈ NewSlice 0 n 1 := by
  rw [newSlice_eq]
  exact List.mem_map.mpr ⟨m.toNat, List.mem_range.mpr (by omega),
    by simpa using Int.toNat_of_nonneg h0⟩

/-- C4: for every draw function satisfying the `rand.Intn` range contract,
every prior generator state, every secrets list and every `n ≥ 1`,
`GenM2FromRandomize` returns a permutation of the integers `[0, n)`
(`NewSlice 0 n 1`), and every integer in `[0, n)` occurs in the output
exactly once. -/
theorem genM2FromRandomize_permutation (f : Int → Nat → Nat → Nat)
    (hf : ∀ s k b, 0 < b → f s k b < b) (g0 : GoRand)
    (randomizes : List Int) (lenSigners : Int) (hn : 1 ≤ lenSigners) :
    ((GenM2FromRandomize f g0 randomizes lenSigners).1).Perm (NewSlice 0 lenSigners 1) ∧
    ∀ m : Int, 0 ≤ m → m < lenSigners →
      ((GenM2FromRandomize f g0 randomizes lenSigners).1).count m = 1 := by
  have hperm : ((GenM2FromRandomize f g0 randomizes lenSigners).1).Perm
      (NewSlice 0 lenSigners 1) := by
    unfold GenM2FromRandomize
    exact genM2Loop_perm f hf _ _ _ rfl
  refine ⟨hperm, fun m hm0 hmn => ?_⟩
  rw [hperm.count_eq]
  exact List.count_eq_one_of_mem (newSlice_nodup lenSigners) (newSlice_mem lenSigners m hm0 hmn)

/-- Witness for `genM2FromRandomize_permutation` with a concrete modular
draw function, seed state `(0, 0)`, secrets `[5, 7]` and `n = 4`. -/
theorem genM2FromRandomize_permutation_witness :
    ((GenM2FromRandomize (fun s k b => (s.natAbs + k) % b) ⟨0, 0⟩ [5, 7] 4).1).Perm
      (NewSlice 0 4 1) ∧
    ((GenM2FromRandomize (fun s k b => (s.natAbs + k) % b) ⟨0, 0⟩ [5, 7] 4).1).count 2 = 1 :=
  have h := genM2FromRandomize_permutation (fun s k b => (s.natAbs + k) % b)
    (fun _ _ _ hb => Nat.mod_lt _ hb) ⟨0, 0⟩ [5, 7] 4 (by decide)
  ⟨h.1, h.2 2 (by decide) (by decide)⟩

/-- C5: `GenM2FromRandomize` is deterministic — the output depends only on
the wrapping `int64` sum of the secrets (the seed) and the validator
count, not on the prior state of the global generator: two invocations
with equal seeds (in particular, with the same secrets list) produce
identical output sequences. -/
theorem genM2FromRandomize_deterministic (f : Int → Nat → Nat → Nat)
    (g0 g0' : GoRand) (randomizes randomizes' : List Int) (lenSigners : Int)
    (hsum : int64Sum randomizes = int64Sum randomizes') :
    (GenM2FromRandomize f g0 randomizes lenSigners).1 =
      (GenM2FromRandomize f g0' randomizes' lenSigners).1 := by
  unfold GenM2FromRandomize
  rw [hsum]

/-- Witness for `genM2FromRandomize_deterministic`: secrets `[1, 2]` and
`[3]` share the seed `3`, and two different prior generator states yield
the same output for `n = 4`. -/
theorem genM2FromRandomize_deterministic_witness :
    int64Sum [1, 2] = int64Sum [3] ∧
    (GenM2FromRandomize (fun s k b => (s.natAbs + k) % b) ⟨99, 5⟩ [1, 2] 4).1 =
      (GenM2FromRandomize (fun s k b => (s.natAbs + k) % b) ⟨0, 0⟩ [3] 4).1 :=
  ⟨by decide,
    genM2FromRandomize_deterministic (fun s k b => (s.natAbs + k) % b) ⟨99, 5⟩ ⟨0, 0⟩
      [1, 2] [3] 4 (by decide)⟩

/-- The sign-submission loop makes at most `fuel` further `AddLocal`
attempts. -/
theorem signLoop_attempts_le (env : TxEnv) :
    ∀ (fuel rc nonce : Nat) (o : Oracles) (tr : SignTrace),
      (signLoop env fuel rc nonce o tr).2.2.attempts ≤ tr.attempts + fuel := by
  intro fuel
  induction fuel with
  | zero => intro rc nonce o tr; simp [signLoop]
  | succ m ih =>
    intro rc nonce o tr
    rw [signLoop]
    split
    · try dsimp only
      omega
    · try dsimp only
      split
      · try dsimp only
        omega
      · try dsimp only
        split
        · try dsimp only
          omega
        · refine le_trans (ih _ _ _ _) ?_
          try dsimp only
          omega

/-- When the wallet always signs and the first ten `AddLocal` submissions
all fail, the loop runs all ten attempts with freshly read nonces and ends
with the tenth submission error.  The invariant ties the loop counters at
retry `rc` to `rc` itself. -/
theorem signLoop_all_fail (env : TxEnv)
    (hsign : ∀ k, env.signTxErr k = none)
    (hfail : ∀ k, k < 10 → (env.addLocalErr k).isSome = true) :
    ∀ (fuel rc : Nat), fuel + rc = 11 → 1 ≤ rc → rc ≤ 10 →
      signLoop env fuel rc (env.getNonce (rc - 1))
          ⟨rc, rc - 1, rc - 1⟩
          ⟨rc - 1, (List.range (rc - 1)).map env.getNonce, rc⟩ =
        (env.addLocalErr 9, ⟨11, 10, 10⟩, ⟨10, (List.range 10).map env.getNonce, 11⟩) := by
  intro fuel
  induction fuel with
  | zero => intro rc h11 h1 h10; omega
  | succ m ih =>
    intro rc h11 h1 h10
    rw [signLoop]
    rw [hsign (rc - 1)]
    dsimp only
    have hnu : ((List.range (rc - 1)).map env.getNonce) ++ [env.getNonce (rc - 1)] =
        (List.range rc).map env.getNonce := by
      rw [show rc = (rc - 1) + 1 from by omega, List.range_succ]
      simp
    obtain ⟨e, he⟩ := Option.isSome_iff_exists.mp (hfail (rc - 1) (by omega))
    rw [he]
    dsimp only
    split
    · have hrc : rc = 10 := by omega
      subst hrc
      rw [← he]
      simp [hnu]
    · have hlt : rc < 10 := by omega
      have hstep := ih (rc + 1) (by omega) (by omega) (by omega)
      simp only [Nat.add_sub_cancel] at hstep
      rw [show rc - 1 + 1 = rc from by omega, hnu]
      exact hstep

/-- The trace of a `CreateTransactionSign` call is exactly the sign-loop
trace (the secret/opening phases never touch it). -/
theorem createTransactionSign_trace (env : TxEnv) (blockNumber : Nat) (db0 : Option Bytes) :
    (CreateTransactionSign env blockNumber db0).trace =
      if env.s2posEnabled then (signLoop env 10 1 (env.getNonce 0) ⟨1, 0, 0⟩ ⟨0, [], 1⟩).2.2
      else ⟨0, [], 0⟩ := by
  unfold CreateTransactionSign
  split
  · try dsimp only
    split
    · rfl
    · try dsimp only
      try split
      all_goals rfl
  · rfl

/-- C9: `CreateTransactionSign` attempts to add the signed sign
transaction to the pool at most 10 times; and when the wallet always
signs but all ten submissions fail, it makes exactly 10 attempts, each
using a freshly read nonce (attempt `k+1` uses the `k`-th nonce read,
reading the nonce again after every failure, 11 reads in all), and
returns the tenth (last) submission error. -/
theorem createTransactionSign_retry_bound (env : TxEnv) (blockNumber : Nat)
    (db0 : Option Bytes) :
    (CreateTransactionSign env blockNumber db0).trace.attempts ≤ 10 ∧
    (env.s2posEnabled = true → (∀ k, env.signTxErr k = none) →
      (∀ k, k < 10 → (env.addLocalErr k).isSome = true) →
      (CreateTransactionSign env blockNumber db0).trace =
          ⟨10, (List.range 10).map env.getNonce, 11⟩ ∧
        (CreateTransactionSign env blockNumber db0).err = env.addLocalErr 9) := by
  constructor
  · rw [createTransactionSign_trace]
    split
    · exact le_trans (signLoop_attempts_le env 10 1 _ _ _) (by simp)
    · simp
  · intro hen hsign hfail
    have hloop := signLoop_all_fail env hsign hfail 10 1 rfl (by omega) (by omega)
    simp only [Nat.sub_self, List.range_zero, List.map_nil] at hloop
    constructor
    · rw [createTransactionSign_trace, if_pos hen, hloop]
    · unfold CreateTransactionSign
      rw [if_pos hen]
      dsimp only
      rw [hloop]
      obtain ⟨e, he⟩ := Option.isSome_iff_exists.mp (hfail 9 (by omega))
      rw [he]

/-- Witness for `createTransactionSign_retry_bound` on the environment in
which every submission fails. -/
theorem createTransactionSign_retry_bound_witness :
    (CreateTransactionSign witTxEnvAllFail 7 none).trace.attempts ≤ 10 ∧
    (CreateTransactionSign witTxEnvAllFail 7 none).trace =
      ⟨10, (List.range 10).map witTxEnvAllFail.getNonce, 11⟩ ∧
    (CreateTransactionSign witTxEnvAllFail 7 none).err = witTxEnvAllFail.addLocalErr 9 :=
  have h := createTransactionSign_retry_bound witTxEnvAllFail 7 none
  have h2 := h.2 (by decide) (fun _ => rfl) (fun k _ => rfl)
  ⟨h.1, h2.1, h2.2⟩

/-- If the opening branch reported no error, it deleted the persisted
key. -/
theorem openingPhase_db_of_err_none (env : TxEnv) (db : Option Bytes) (o : Oracles)
    (h : (openingPhase env db o).1 = none) : (openingPhase env db o).2.1 = none := by
  unfold openingPhase at *
  cases db with
  | none => simp at h
  | some k =>
    cases hs : env.signTxErr o.signIdx with
    | some e =>
      rw [hs] at h
      simp at h
    | none =>
      rw [hs] at h
      dsimp only at h
      cases ha : env.addLocalErr o.addIdx with
      | some e =>
        rw [ha] at h
        simp at h
      | none =>
        dsimp only

/-- C8: in any single `CreateTransactionSign` call, at most one of the
secret-commit and the opening-reveal transaction is built and submitted,
never both; the secret branch runs only when no `randomizeKey` is
persisted and `checkNumber = blockNumber % Epoch` satisfies
`0 < checkNumber` and `EpocBlockSecret ≤ checkNumber < EpocBlockOpening`;
the opening branch only when a key is persisted and
`EpocBlockOpening ≤ checkNumber ≤ EpocBlockRandomize`; a second secret is
never committed while an unrevealed persisted key exists; and the
persisted key is deleted once the opening is successfully submitted. -/
theorem createTransactionSign_secret_opening_exclusive (env : TxEnv) (blockNumber : Nat)
    (db0 : Option Bytes) (hep : 0 < env.epoch) :
    (¬ ((CreateTransactionSign env blockNumber db0).secretTried = true ∧
        (CreateTransactionSign env blockNumber db0).openingTried = true)) ∧
    ((CreateTransactionSign env blockNumber db0).secretTried = true →
      db0 = none ∧ 0 < blockNumber % env.epoch ∧
        env.epocBlockSecret ≤ blockNumber % env.epoch ∧
        blockNumber % env.epoch < env.epocBlockOpening) ∧
    ((CreateTransactionSign env blockNumber db0).openingTried = true →
      db0.isSome = true ∧ env.epocBlockOpening ≤ blockNumber % env.epoch ∧
        blockNumber % env.epoch ≤ env.epocBlockRandomize) ∧
    (db0.isSome = true → (CreateTransactionSign env blockNumber db0).secretTried = false) ∧
    ((CreateTransactionSign env blockNumber db0).openingAdded = true →
      (CreateTransactionSign env blockNumber db0).db = none) := by
  clear hep
  unfold CreateTransactionSign
  split
  · try dsimp only
    split
    · simp
    · try dsimp only
      cases db0 with
      | some k =>
        simp only [Option.isSome_some, Bool.not_true, Bool.false_and, Bool.true_and,
          if_neg, Bool.false_eq_true, not_false_iff, ite_false]
        split
        · rename_i heq
          simp only [Bool.and_eq_true, decide_eq_true_eq] at heq
          refine ⟨by simp, by simp, fun _ => ⟨trivial, heq.1.2, heq.2⟩, by simp, fun hadd => ?_⟩
          simp only [Bool.and_eq_true, Option.isNone_iff_eq_none] at hadd
          exact openingPhase_db_of_err_none env (some k) _ hadd.2
        · rename_i heq
          refine ⟨by simp, by simp, fun hop => ?_, by simp, fun hadd => ?_⟩
          · exact absurd hop heq
          · exact absurd (Bool.and_eq_true _ _ |>.mp hadd).1 heq
      | none =>
        simp only [Option.isSome_none, Bool.not_false, Bool.true_and, Bool.false_and,
          Bool.false_eq_true, if_neg, not_false_iff, ite_false]
        try dsimp only
        split
        · refine ⟨by simp, fun hsec => ?_, by simp, by simp, by simp⟩
          simp only [Bool.and_eq_true, decide_eq_true_eq] at hsec
          exact ⟨trivial, hsec.1.1, hsec.1.2, hsec.2⟩
        · refine ⟨by simp, fun hsec => ?_, by simp, by simp, by simp⟩
          simp only [Bool.and_eq_true, decide_eq_true_eq] at hsec
          exact ⟨trivial, hsec.1.1, hsec.1.2, hsec.2⟩
  · simp

/-- Witness for `createTransactionSign_secret_opening_exclusive`: the
all-successful environment at block 7 (inside the secret window) with no
persisted key. -/
theorem createTransactionSign_secret_opening_exclusive_witness :
    0 < witTxEnvOk.epoch ∧
    ((CreateTransactionSign witTxEnvOk 7 none).secretTried = true →
      none = (none : Option Bytes) ∧ 0 < 7 % witTxEnvOk.epoch ∧
        witTxEnvOk.epocBlockSecret ≤ 7 % witTxEnvOk.epoch ∧
        7 % witTxEnvOk.epoch < witTxEnvOk.epocBlockOpening) :=
  ⟨by decide,
    (createTransactionSign_secret_opening_exclusive witTxEnvOk 7 none (by decide)).2.1⟩

/-- XOR truncates to the shorter operand. -/
theorem xorBytes_length (a b : Bytes) : (xorBytes a b).length = min a.length b.length := by
  simp [xorBytes]

/-- XORing twice with the same keystream is the identity when the
keystream covers the data. -/
theorem xorBytes_cancel (a b : Bytes) (h : a.length ≤ b.length) :
    xorBytes (xorBytes a b) b = a := by
  induction a generalizing b with
  | nil => simp [xorBytes]
  | cons x t ih =>
    cases b with
    | nil => simp at h
    | cons y u =>
      simp only [xorBytes, List.zipWith_cons_cons] at *
      rw [Nat.xor_cancel_right]
      rw [ih u (by simpa using h)]

/-- Encrypting the empty plaintext yields the empty ciphertext. -/
theorem cfbEncryptLoop_nil (E : Bytes → Bytes) (fuel : Nat) (iv : Bytes) :
    cfbEncryptLoop E fuel iv [] = [] := by
  cases fuel <;> simp [cfbEncryptLoop]

/-- Decrypting the empty ciphertext yields the empty plaintext. -/
theorem cfbDecryptLoop_nil (E : Bytes → Bytes) (fuel : Nat) (iv : Bytes) :
    cfbDecryptLoop E fuel iv [] = [] := by
  cases fuel <;> simp [cfbDecryptLoop]

/-- CFB encryption preserves the length when the block function returns
full 16-byte blocks. -/
theorem cfbEncryptLoop_length (E : Bytes → Bytes) (hE : ∀ b, (E b).length = 16) :
    ∀ (n : Nat) (iv pt : Bytes), pt.length ≤ n →
      (cfbEncryptLoop E n iv pt).length = pt.length := by
  intro n
  induction n with
  | zero =>
    intro iv pt h
    have hpt : pt = [] := List.length_eq_zero.mp (by omega)
    subst hpt
    simp [cfbEncryptLoop]
  | succ m ih =>
    intro iv pt h
    by_cases hpt : pt = []
    · subst hpt; simp [cfbEncryptLoop]
    · have hrec := ih (xorBytes (pt.take aesBlockSize) (E iv)) (pt.drop aesBlockSize)
        (by simp only [List.length_drop, aesBlockSize]; omega)
      rw [cfbEncryptLoop, if_neg hpt]
      dsimp only
      rw [List.length_append, hrec, xorBytes_length, hE, List.length_take, List.length_drop]
      have hl : 0 < pt.length := List.length_pos.mpr hpt
      simp only [aesBlockSize]
      omega

/-- CFB decryption inverts CFB encryption under the same block function
and IV, for any sufficient fuels. -/
theorem cfbDecryptLoop_cfbEncryptLoop (E : Bytes → Bytes) (hE : ∀ b, (E b).length = 16) :
    ∀ (n1 n2 : Nat) (iv pt : Bytes), pt.length ≤ n1 → pt.length ≤ n2 →
      cfbDecryptLoop E n2 iv (cfbEncryptLoop E n1 iv pt) = pt := by
  intro n1
  induction n1 with
  | zero =>
    intro n2 iv pt h1 h2
    have hpt : pt = [] := List.length_eq_zero.mp (by omega)
    subst hpt
    simp [cfbEncryptLoop_nil, cfbDecryptLoop_nil]
  | succ m ih =>
    intro n2 iv pt h1 h2
    by_cases hpt : pt = []
    · subst hpt; simp [cfbEncryptLoop_nil, cfbDecryptLoop_nil]
    · rw [cfbEncryptLoop, if_neg hpt]
      dsimp only
      set chunk := pt.take aesBlockSize with hchunk
      set ks := E iv with hks
      set ctChunk := xorBytes chunk ks with hcc
      set rest := cfbEncryptLoop E m ctChunk (pt.drop aesBlockSize) with hrest
      have hl : 0 < pt.length := List.length_pos.mpr hpt
      have hchunklen : chunk.length = min pt.length 16 := by
        rw [hchunk, List.length_take, Nat.min_comm]
        rfl
      have hcclen : ctChunk.length = chunk.length := by
        rw [hcc, xorBytes_length, hks, hE]
        omega
      have hccpos : 0 < ctChunk.length := by
        rw [hcclen, hchunklen]
        omega
      have hcne : ctChunk ≠ [] := by
        intro h0
        rw [h0] at hccpos
        simp at hccpos
      obtain ⟨m2, rfl⟩ : ∃ m2, n2 = m2 + 1 := ⟨n2 - 1, by omega⟩
      rw [cfbDecryptLoop, if_neg (by simp [hcne])]
      dsimp only
      by_cases hlen16 : pt.length ≤ 16
      · have hchunkpt : chunk = pt := by
          rw [hchunk]
          exact List.take_of_length_le (by simp only [aesBlockSize]; omega)
        have hdrop : pt.drop aesBlockSize = [] :=
          List.drop_eq_nil_of_le (by simp only [aesBlockSize]; omega)
        have hrestnil : rest = [] := by rw [hrest, hdrop, cfbEncryptLoop_nil]
        rw [hrestnil, List.append_nil]
        have htk : ctChunk.take aesBlockSize = ctChunk :=
          List.take_of_length_le (by rw [hcclen, hchunklen]; simp only [aesBlockSize]; omega)
        have hdr : ctChunk.drop aesBlockSize = [] :=
          List.drop_eq_nil_of_le (by rw [hcclen, hchunklen]; simp only [aesBlockSize]; omega)
        rw [htk, hdr, cfbDecryptLoop_nil, List.append_nil]
        rw [hcc, hchunkpt, hks]
        exact xorBytes_cancel pt (E iv) (by rw [hE]; omega)
      · have hchunklen16 : chunk.length = 16 := by rw [hchunklen]; omega
        have hcclen16 : ctChunk.length = 16 := by rw [hcclen, hchunklen16]
        have h16cc : aesBlockSize = ctChunk.length := by rw [hcclen16]; rfl
        have htk : (ctChunk ++ rest).take aesBlockSize = ctChunk := by
          rw [h16cc]
          exact List.take_left _ _
        have hdr : (ctChunk ++ rest).drop aesBlockSize = rest := by
          rw [h16cc]
          exact List.drop_left _ _
        rw [htk, hdr]
        have hxc : xorBytes ctChunk ks = chunk := by
          rw [hcc]
          exact xorBytes_cancel chunk ks (by rw [hks, hE, hchunklen16])
        rw [hxc]
        have hrec : cfbDecryptLoop E m2 ctChunk rest = pt.drop aesBlockSize := by
          rw [hrest]
          exact ih m2 ctChunk _ (by simp only [List.length_drop]; omega)
            (by simp only [List.length_drop, aesBlockSize]; omega)
        rw [hrec, hchunk]
        exact List.take_append_drop _ _

/-- C6: for a key the external AES accepts (a valid fixed length of 16,
24 or 32 bytes), a 16-byte IV, and a base64 codec that round-trips the
produced ciphertext, `Decrypt(key, Encrypt(key, s)) = s` — the successful
`Encrypt` output always decrypts back to the original plaintext under the
same key. -/
theorem decrypt_encrypt_roundtrip (aesCipher : Bytes → Option (Bytes → Bytes))
    (b64enc : Bytes → String) (b64dec : String → Bytes) (key iv text : Bytes)
    (E : Bytes → Bytes)
    (hkey : key.length = 16 ∨ key.length = 24 ∨ key.length = 32)
    (hc : aesCipher key = some E)
    (hE : ∀ b, (E b).length = 16)
    (hiv : iv.length = 16)
    (hb : b64dec (b64enc (iv ++ cfbEncrypt E iv text)) = iv ++ cfbEncrypt E iv text) :
    Decrypt aesCipher b64dec key (Encrypt aesCipher (some iv) b64enc key text) = text := by
  clear hkey
  unfold Encrypt Decrypt
  rw [hc]
  dsimp only
  rw [hb]
  have hctlen : (cfbEncrypt E iv text).length = text.length := by
    unfold cfbEncrypt
    exact cfbEncryptLoop_length E hE _ _ _ le_rfl
  rw [if_neg (by simp [hiv, aesBlockSize])]
  have h16 : aesBlockSize = iv.length := by rw [hiv]; rfl
  rw [h16, List.take_left, List.drop_left]
  unfold cfbDecrypt cfbEncrypt
  rw [show (cfbEncryptLoop E text.length iv text).length = text.length from
    cfbEncryptLoop_length E hE _ _ _ le_rfl]
  exact cfbDecryptLoop_cfbEncryptLoop E hE text.length text.length iv text le_rfl le_rfl

/-- Witness for `decrypt_encrypt_roundtrip` with the stand-in AES and
byte codec, a 16-byte key and IV, and plaintext bytes `[104, 105]`. -/
theorem decrypt_encrypt_roundtrip_witness :
    (List.replicate 16 0 : Bytes).length = 16 ∧
    witAes (List.replicate 16 0) = some witBlockE ∧
    Decrypt witAes byteStringDec (List.replicate 16 0)
      (Encrypt witAes (some (List.replicate 16 1)) byteStringEnc
        (List.replicate 16 0) [104, 105]) = [104, 105] :=
  ⟨by decide, rfl,
    decrypt_encrypt_roundtrip witAes byteStringEnc byteStringDec
      (List.replicate 16 0) (List.replicate 16 1) [104, 105] witBlockE
      (Or.inl (by decide)) rfl
      (fun b => by simp [witBlockE])
      (by decide) (by decide)⟩

/-- In the non-underflowing regime the walk range starts at the
checkpoint header's parent, block `number - 1`. -/
theorem walkIndices_cons (n rcp : Nat) (h1 : 0 < rcp) (h2 : rcp * 2 ≤ n) :
    walkIndices n rcp = (n - 1) :: (List.range' (n - rcp * 2 + 1) (rcp * 2 - 2)).reverse := by
  unfold walkIndices
  rw [show rcp * 2 - 1 = (rcp * 2 - 2) + 1 from by omega, List.range'_1_concat,
    List.reverse_append]
  simp only [List.reverse_cons, List.reverse_nil, List.nil_append, List.singleton_append]
  congr 1
  omega

/-- A walk continuing from a nil current header either has nothing left to
do or panics on the next `header.ParentHash` dereference. -/
theorem walkLoop_from_none (ctx : CkptCtx) (is : List Nat) (mp : Nat → Hash)
    (data : Hash → List Addr) :
    (is = [] ∧ walkLoop ctx is none mp data = .ok (none, mp, data)) ∨
    walkLoop ctx is none mp data = .error GoPanic.nilDeref := by
  cases is with
  | nil => exact Or.inl ⟨rfl, rfl⟩
  | cons i t => exact Or.inr rfl

/-- When the header lookup for block `i` misses, the walk step either
panics at once (on `block.Transactions()` or `header.Number`), or — when
the signing-transaction cache happens to hold an entry for the nil
header's hash — carries the nil header into the next iteration. -/
theorem walkStep_missing (ctx : CkptCtx) (hdr : Header) (i : Nat) (mp : Nat → Hash)
    (data : Hash → List Addr) (hmiss : ctx.getHeader hdr.parentHash i = none) :
    (∃ mp' data', walkStep ctx (some hdr) i mp data = .ok (none, mp', data')) ∨
    walkStep ctx (some hdr) i mp data = .error GoPanic.nilDeref := by
  unfold walkStep
  simp only [bind, Except.bind, pure, Except.pure, hdrParentHash, hdrHash, hmiss]
  cases hc : ctx.getCachedSigningTxs nilHeaderHash with
  | some txs =>
    left
    exact ⟨_, _, rfl⟩
  | none =>
    right
    cases hb : ctx.getBlockTxs nilHeaderHash i with
    | none => rfl
    | some txs0 => rfl

/-- A successful walk step found its sign data in the cache or in a found
block, and its output header is exactly the chain reader's answer for the
parent hash: the failure-free shape of one iteration of utils.go lines
349-374. -/
theorem walkStep_ok_inv (ctx : CkptCtx) (h : Header) (i : Nat) (mp : Nat → Hash)
    (data : Hash → List Addr) (oh' : Option Header) (mp' : Nat → Hash)
    (data' : Hash → List Addr)
    (hs : walkStep ctx (some h) i mp data = Except.ok (oh', mp', data')) :
    oh' = ctx.getHeader h.parentHash i ∧
    ((ctx.getCachedSigningTxs (hdrHash (ctx.getHeader h.parentHash i))).isSome = true ∨
      (ctx.getBlockTxs (hdrHash (ctx.getHeader h.parentHash i)) i).isSome = true) := by
  unfold walkStep at hs
  simp only [bind, Except.bind, pure, Except.pure, hdrParentHash] at hs
  cases hc : ctx.getCachedSigningTxs (hdrHash (ctx.getHeader h.parentHash i)) with
  | some txs =>
    rw [hc] at hs
    simp only [bind, Except.bind, Except.ok.injEq, Prod.mk.injEq] at hs
    exact ⟨hs.1.symm, Or.inl rfl⟩
  | none =>
    rw [hc] at hs
    cases hb : ctx.getBlockTxs (hdrHash (ctx.getHeader h.parentHash i)) i with
    | none =>
      rw [hb] at hs
      simp at hs
    | some txs0 =>
      rw [hb] at hs
      refine ⟨?_, Or.inr rfl⟩
      cases hoh : ctx.getHeader h.parentHash i with
      | none =>
        rw [hoh] at hs
        simp at hs
      | some hh2 =>
        rw [hoh] at hs
        dsimp only at hs
        split at hs <;>
          simp only [bind, Except.bind, Except.ok.injEq, Prod.mk.injEq] at hs <;>
          exact hs.1.symm

/-- If the walk completes without panicking and the two dereferences after
the loop (the final `header.ParentHash` and the `prevCheckpoint` header
fetch of utils.go line 375) also succeed, then every header and sign-data
lookup along the whole walk succeeded. -/
theorem walkLoop_ok_lookups (ctx : CkptCtx) (prev : Nat) :
    ∀ (is : List Nat) (h : Header) (mp : Nat → Hash) (data : Hash → List Addr)
      (ohf : Option Header) (mpf : Nat → Hash) (dataf : Hash → List Addr)
      (ph : Hash) (hPrev : Header),
      walkLoop ctx is (some h) mp data = Except.ok (ohf, mpf, dataf) →
      hdrParentHash ohf = Except.ok ph →
      ctx.getHeader ph prev = some hPrev →
      CheckpointLookupsOk ctx prev is h := by
  intro is
  induction is with
  | nil =>
    intro h mp data ohf mpf dataf ph hPrev hw hp hh
    rw [walkLoop] at hw
    simp only [Except.ok.injEq, Prod.mk.injEq] at hw
    rw [← hw.1] at hp
    simp only [hdrParentHash, Except.ok.injEq] at hp
    refine CheckpointLookupsOk.nil h ?_
    rw [hp, hh]
    rfl
  | cons i rest ih =>
    intro h mp data ohf mpf dataf ph hPrev hw hp hh
    rw [walkLoop] at hw
    cases hs : walkStep ctx (some h) i mp data with
    | error e =>
      rw [hs] at hw
      simp [bind, Except.bind] at hw
    | ok st =>
      obtain ⟨oh', mp', data'⟩ := st
      rw [hs] at hw
      simp only [bind, Except.bind] at hw
      try dsimp only at hw
      obtain ⟨hinv1, hinv2⟩ := walkStep_ok_inv ctx h i mp data oh' mp' data' hs
      cases hoh' : oh' with
      | none =>
        rw [hoh'] at hw
        rcases walkLoop_from_none ctx rest mp' data' with ⟨hrest0, hloop⟩ | hloop
        · rw [hloop] at hw
          simp only [Except.ok.injEq, Prod.mk.injEq] at hw
          rw [← hw.1] at hp
          simp [hdrParentHash] at hp
        · rw [hloop] at hw
          simp at hw
      | some h' =>
        rw [hoh'] at hw hinv1
        rw [← hinv1] at hinv2
        simp only [hdrHash] at hinv2
        exact CheckpointLookupsOk.cons i rest h h' hinv1.symm hinv2
          (ih h' mp' data' ohf mpf dataf ph hPrev hw hp hh)

/-- C2 (amended): `GetRewardForCheckpoint` never returns a Go error;
whenever it completes with a per-signer tally, every header and block
lookup along the whole walk-back — at every walk step and at the final
`prevCheckpoint` header fetch — succeeded; and conversely a missing
header or block anywhere along the walk-back aborts the whole computation
with a runtime panic (nil dereference), so no per-signer tally, partial
or otherwise, is produced. -/
theorem getRewardForCheckpoint_missing_aborts_via_panic :
    (∀ (ctx : CkptCtx) (hdr : Header) (rcp t0 : Nat),
      GetRewardForCheckpoint ctx hdr rcp t0 ≠ CheckpointResult.goError) ∧
    (∀ (ctx : CkptCtx) (hdr : Header) (rcp t0 : Nat)
      (signers : List (Addr × Nat)) (total : Nat),
      GetRewardForCheckpoint ctx hdr rcp t0 = CheckpointResult.ok signers total →
      CheckpointLookupsOk ctx (hdr.number - rcp * 2) (walkIndices hdr.number rcp) hdr) ∧
    (∀ (ctx : CkptCtx) (hdr : Header) (rcp t0 : Nat),
      ¬ CheckpointLookupsOk ctx (hdr.number - rcp * 2) (walkIndices hdr.number rcp) hdr →
      GetRewardForCheckpoint ctx hdr rcp t0 = CheckpointResult.panic) := by
  have ha : ∀ (ctx : CkptCtx) (hdr : Header) (rcp t0 : Nat),
      GetRewardForCheckpoint ctx hdr rcp t0 ≠ CheckpointResult.goError := by
    intro ctx hdr rcp t0
    unfold GetRewardForCheckpoint
    dsimp only
    split
    · simp
    · split
      · simp
      · split
        · simp
        · simp
  have hb : ∀ (ctx : CkptCtx) (hdr : Header) (rcp t0 : Nat)
      (signers : List (Addr × Nat)) (total : Nat),
      GetRewardForCheckpoint ctx hdr rcp t0 = CheckpointResult.ok signers total →
      CheckpointLookupsOk ctx (hdr.number - rcp * 2) (walkIndices hdr.number rcp) hdr := by
    intro ctx hdr rcp t0 signers total hok
    unfold GetRewardForCheckpoint at hok
    dsimp only at hok
    cases hw : walkLoop ctx (walkIndices hdr.number rcp) (some hdr)
        (fun _ => zeroHash) (fun _ => []) with
    | error e =>
      rw [hw] at hok
      simp at hok
    | ok s =>
      obtain ⟨oh, mpf, dataf⟩ := s
      rw [hw] at hok
      try dsimp only at hok
      cases hp : hdrParentHash oh with
      | error e =>
        rw [hp] at hok
        simp at hok
      | ok ph =>
        rw [hp] at hok
        try dsimp only at hok
        cases hh : ctx.getHeader ph (hdr.number - rcp * 2) with
        | none =>
          rw [hh] at hok
          simp at hok
        | some hPrev =>
          exact walkLoop_ok_lookups ctx (hdr.number - rcp * 2)
            (walkIndices hdr.number rcp) hdr (fun _ => zeroHash) (fun _ => [])
            oh mpf dataf ph hPrev hw hp hh
  refine ⟨ha, hb, ?_⟩
  intro ctx hdr rcp t0 hmiss
  cases hres : GetRewardForCheckpoint ctx hdr rcp t0 with
  | ok signers total => exact absurd (hb ctx hdr rcp t0 signers total hres) hmiss
  | goError => exact absurd hres (ha ctx hdr rcp t0)
  | panic => rfl

/-- Counterexample to C2: on a chain reader with every lookup missing,
`GetRewardForCheckpoint` does not return a Go error — it aborts with a
runtime nil-dereference panic. -/
theorem getRewardForCheckpoint_missing_no_error_cex :
    cexMissingCtx.getHeader (witHeader 4).parentHash ((witHeader 4).number - 1) = none ∧
    GetRewardForCheckpoint cexMissingCtx (witHeader 4) 1 0 = CheckpointResult.panic ∧
    CheckpointResult.panic ≠ CheckpointResult.goError := by
  exact ⟨rfl, by decide, by decide⟩

/-- Witness for `getRewardForCheckpoint_missing_aborts_via_panic`: the
fully resolving chain's successful run at checkpoint header 4 with
`rCheckpoint = 1` certifies that all its lookups succeeded, while the
all-missing chain fails the lookup predicate and panics. -/
theorem getRewardForCheckpoint_missing_aborts_via_panic_witness :
    GetRewardForCheckpoint cexMissingCtx (witHeader 4) 1 0 ≠ CheckpointResult.goError ∧
    CheckpointLookupsOk witCkptCtx ((witHeader 4).number - 1 * 2)
      (walkIndices (witHeader 4).number 1) (witHeader 4) ∧
    GetRewardForCheckpoint cexMissingCtx (witHeader 4) 1 0 = CheckpointResult.panic :=
  have hnot : ¬ CheckpointLookupsOk cexMissingCtx ((witHeader 4).number - 1 * 2)
      (walkIndices (witHeader 4).number 1) (witHeader 4) := by
    intro hcl
    rw [(by decide : walkIndices (witHeader 4).number 1 = [3])] at hcl
    cases hcl with
    | cons i rest h h' hst hdisj hrest => simp [cexMissingCtx] at hst
  ⟨getRewardForCheckpoint_missing_aborts_via_panic.1 cexMissingCtx (witHeader 4) 1 0,
    getRewardForCheckpoint_missing_aborts_via_panic.2.1 witCkptCtx (witHeader 4) 1 0
      [(77, 1)] 1 (by decide),
    getRewardForCheckpoint_missing_aborts_via_panic.2.2 cexMissingCtx (witHeader 4) 1 0
      hnot⟩

/-- Association-list lookup on a cons cell. -/
theorem lookup_cons_eq (k x : Addr) (v : Nat) (t : List (Addr × Nat)) :
    ((k, v) :: t).lookup x = if x = k then some v else t.lookup x := by
  simp [List.lookup]
  split <;> rename_i h
  · simp [beq_iff_eq] at h
    simp [h]
  · simp [beq_iff_eq] at h
    simp [h]

/-- Lookup after the in-place increment map of `bumpSign`. -/
theorem lookup_bump_map (l : List (Addr × Nat)) (a x : Addr) :
    (l.map (fun p => if p.1 = a then (p.1, p.2 + 1) else p)).lookup x =
      if x = a then (l.lookup a).map (· + 1) else l.lookup x := by
  induction l with
  | nil => simp
  | cons p t ih =>
    obtain ⟨k, v⟩ := p
    by_cases hk : k = a
    · subst hk
      simp only [List.map_cons, if_pos rfl]
      rw [lookup_cons_eq, lookup_cons_eq]
      by_cases hx : x = k
      · subst hx
        rw [lookup_cons_eq]
        simp
      · rw [ih, lookup_cons_eq]
        simp [hx]
    · simp only [List.map_cons, if_neg hk]
      rw [lookup_cons_eq, lookup_cons_eq]
      by_cases hx : x = k
      · subst hx
        have hxa : ¬ (x = a) := hk
        simp [hxa]
      · rw [ih]
        by_cases hxa : x = a
        · subst hxa
          rw [lookup_cons_eq]
          simp [Ne.symm hk, hx]
        · rw [lookup_cons_eq]
          simp [hx, hxa]

/-- Lookup after appending a fresh binding to a list that lacks the key. -/
theorem lookup_append_single (l : List (Addr × Nat)) (a x : Addr)
    (hnone : l.lookup a = none) :
    (l ++ [(a, 1)]).lookup x = if x = a then some 1 else l.lookup x := by
  induction l with
  | nil => simp [lookup_cons_eq]
  | cons p t ih =>
    obtain ⟨k, v⟩ := p
    rw [List.cons_append, lookup_cons_eq, lookup_cons_eq]
    rw [lookup_cons_eq] at hnone
    by_cases hak : a = k
    · rw [if_pos hak] at hnone
      simp at hnone
    · rw [if_neg hak] at hnone
      by_cases hx : x = k
      · subst hx
        have hxa : ¬ (x = a) := fun hc => hak hc.symm
        simp [hxa]
      · rw [ih hnone]
        simp [hx]

/-- Go's `signers[addr].Sign++` / insert-with-1: the incremented key reads
back one higher, all other keys unchanged. -/
theorem lookup_bumpSign (l : List (Addr × Nat)) (a x : Addr) :
    (bumpSign l a).lookup x =
      if x = a then some (((l.lookup a).getD 0) + 1) else l.lookup x := by
  unfold bumpSign
  split
  · rename_i hsome
    rw [lookup_bump_map]
    obtain ⟨v, hv⟩ := Option.isSome_iff_exists.mp hsome
    rw [hv]
    by_cases hx : x = a <;> simp [hx, hv]
  · rename_i hnone
    have hnone' : l.lookup a = none := by
      cases h : l.lookup a with
      | none => rfl
      | some v => rw [h] at hnone; simp at hnone
    rw [lookup_append_single l a x hnone']
    by_cases hx : x = a <;> simp [hx, hnone']

/-- Folding the per-block credit over a duplicate-free credited set adds
exactly one to each member's count. -/
theorem tally_inner_count : ∀ (cs : List Addr), cs.Nodup →
    ∀ (st : List (Addr × Nat) × Nat) (a : Addr),
      (((cs.foldl (fun st2 a2 => (bumpSign st2.1 a2, st2.2 + 1)) st).1.lookup a).getD 0) =
        ((st.1.lookup a).getD 0) + (if a ∈ cs then 1 else 0) := by
  intro cs
  induction cs with
  | nil => intro _ st a; simp
  | cons c t ih =>
    intro hnd st a
    rw [List.foldl_cons, ih (List.nodup_cons.mp hnd).2]
    dsimp only
    rw [lookup_bumpSign]
    by_cases hac : a = c
    · subst hac
      rw [if_pos rfl]
      have hat : a ∉ t := (List.nodup_cons.mp hnd).1
      simp [hat]
    · rw [if_neg hac]
      simp [hac]

/-- The credited set never contains anyone when no sign transaction
referenced the block. -/
theorem creditedSigners_nil (mns : List Addr) : creditedSigners mns [] = [] := by
  simp [creditedSigners]

/-- The tally over any index list counts, per address, exactly the
eligible indices crediting that address. -/
theorem tallyFold_lookup (epoch msr : Nat) (tip : Nat → Bool) (mns : List Addr)
    (mp : Nat → Hash) (data : Hash → List Addr) :
    ∀ (is : List Nat) (signers0 : List (Addr × Nat)) (t0 : Nat) (a : Addr),
      (((is.foldl
          (fun st i =>
            if eligibleBlock epoch msr tip i then
              let addrs := data (mp i)
              if addrs ≠ [] then
                (creditedSigners mns addrs).foldl
                  (fun st2 a2 => (bumpSign st2.1 a2, st2.2 + 1)) st
              else st
            else st)
          (signers0, t0)).1.lookup a).getD 0) =
        ((signers0.lookup a).getD 0) +
          (is.filter (fun i => eligibleBlock epoch msr tip i &&
            decide (a ∈ creditedSigners mns (data (mp i))))).length := by
  intro is
  induction is with
  | nil => intro signers0 t0 a; simp
  | cons i t ih =>
    intro signers0 t0 a
    rw [List.foldl_cons, List.filter_cons]
    by_cases he : eligibleBlock epoch msr tip i
    · rw [if_pos he]
      dsimp only
      by_cases hne : data (mp i) ≠ []
      · rw [if_pos hne]
        have hfold := tally_inner_count (creditedSigners mns (data (mp i)))
          (List.nodup_dedup _) (signers0, t0) a
        set st1 := (creditedSigners mns (data (mp i))).foldl
          (fun st2 a2 => (bumpSign st2.1 a2, st2.2 + 1)) (signers0, t0) with hst1
        rw [show st1 = (st1.1, st1.2) from rfl, ih st1.1 st1.2 a]
        rw [hst1] at *
        rw [hfold]
        by_cases hm : a ∈ creditedSigners mns (data (mp i)) <;>
          simp [he, hm] <;> omega
      · rw [if_neg hne]
        push_neg at hne
        rw [ih signers0 t0 a]
        have hmem : ¬ (a ∈ creditedSigners mns (data (mp i))) := by
          rw [hne, creditedSigners_nil]
          simp
        simp [he, hmem]
    · rw [if_neg he]
      rw [ih signers0 t0 a]
      simp [he]

/-- C7: whenever `GetRewardForCheckpoint` completes, the walk succeeded,
the masternode set was read from the `prevCheckpoint = number -
2*rCheckpoint` header, and every address's sign count equals the number
of blocks `i` in exactly the window `[prevCheckpoint + 1, prevCheckpoint
+ rCheckpoint]` that credit it — a block credits only if `i % epoch <
MergeSignRange`, or `i % MergeSignRange = 0`, or `IsTIP2019(i)` is false,
and only through the sign data collected for it; no block outside that
window contributes. -/
theorem getRewardForCheckpoint_window_eligibility (ctx : CkptCtx) (hdr : Header)
    (rcp t0 : Nat) (signers : List (Addr × Nat)) (total : Nat)
    (hok : GetRewardForCheckpoint ctx hdr rcp t0 = CheckpointResult.ok signers total) :
    ∃ oh mp data ph hPrev,
      walkLoop ctx (walkIndices hdr.number rcp) (some hdr)
          (fun _ => zeroHash) (fun _ => []) = Except.ok (oh, mp, data) ∧
      hdrParentHash oh = Except.ok ph ∧
      ctx.getHeader ph (hdr.number - rcp * 2) = some hPrev ∧
      ∀ a : Addr,
        ((signers.lookup a).getD 0) =
          ((List.range' (hdr.number - rcp * 2 + 1) rcp).filter (fun i =>
            eligibleBlock ctx.epoch ctx.mergeSignRange ctx.isTIP2019 i &&
            decide (a ∈ creditedSigners (ctx.getMasternodes hPrev) (data (mp i))))).length := by
  unfold GetRewardForCheckpoint at hok
  dsimp only at hok
  cases hw : walkLoop ctx (walkIndices hdr.number rcp) (some hdr)
      (fun _ => zeroHash) (fun _ => []) with
  | error e => rw [hw] at hok; simp at hok
  | ok s =>
    obtain ⟨oh, mp, data⟩ := s
    rw [hw] at hok
    dsimp only at hok
    cases hp : hdrParentHash oh with
    | error e => rw [hp] at hok; simp at hok
    | ok ph =>
      rw [hp] at hok
      dsimp only at hok
      cases hh : ctx.getHeader ph (hdr.number - rcp * 2) with
      | none => rw [hh] at hok; simp at hok
      | some hPrev =>
        rw [hh] at hok
        dsimp only at hok
        rw [CheckpointResult.ok.injEq] at hok
        refine ⟨oh, mp, data, ph, hPrev, rfl, hp, hh, fun a => ?_⟩
        rw [← hok.1]
        unfold tallySigners
        rw [tallyFold_lookup]
        simp

/-- Witness for `getRewardForCheckpoint_window_eligibility` on the
concrete chain `witCkptCtx` at checkpoint header 4 with
`rCheckpoint = 1`: masternode 77 is credited exactly once. -/
theorem getRewardForCheckpoint_window_eligibility_witness :
    GetRewardForCheckpoint witCkptCtx (witHeader 4) 1 0 =
      CheckpointResult.ok [(77, 1)] 1 ∧
    ∃ oh mp data ph hPrev,
      walkLoop witCkptCtx (walkIndices (witHeader 4).number 1) (some (witHeader 4))
          (fun _ => zeroHash) (fun _ => []) = Except.ok (oh, mp, data) ∧
      hdrParentHash oh = Except.ok ph ∧
      witCkptCtx.getHeader ph ((witHeader 4).number - 1 * 2) = some hPrev ∧
      ∀ a : Addr,
        (([(77, 1)].lookup a).getD 0) =
          ((List.range' ((witHeader 4).number - 1 * 2 + 1) 1).filter (fun i =>
            eligibleBlock witCkptCtx.epoch witCkptCtx.mergeSignRange witCkptCtx.isTIP2019 i &&
            decide (a ∈ creditedSigners (witCkptCtx.getMasternodes hPrev)
              (data (mp i))))).length :=
  ⟨by decide,
    getRewardForCheckpoint_window_eligibility witCkptCtx (witHeader 4) 1 0 [(77, 1)] 1
      (by decide)⟩

end FRECX
